import Mathlib

/-!
Verification development for the NFL odds scraper
(`src/odds_scraper/odds.py`).

The pure transformation logic of the scraper (string cleaning via
regular expressions, numeric coercion, the per-week run loop with
cooperative cancellation, input validation, output-path construction)
is shallowly embedded as executable Lean definitions.  Side effects
(browser navigation, HTML parsing, file writes, Qt signal emissions)
are represented by explicit data: an environment function yields the
per-week fetch/parse outcome, and a run produces a record of export
actions and emitted notifications.

Character classes model the ASCII fragment of Python's `\d`, `\w`,
`\s`; all strings that actually flow through the scraper's regexes
are ASCII apart from the U+2212 minus glyph, which is handled
explicitly.
-/

/-- ASCII fragment of Python's `\s` class. -/
def isSpaceChar (c : Char) : Bool :=
  c = ' ' || c = '\t' || c = '\n' || c = '\r' || c = '\x0b' || c = '\x0c'

/-- ASCII fragment of Python's `\w` class: letters, digits, underscore. -/
def isWordChar (c : Char) : Bool :=
  c.isAlphanum || c = '_'

/-!
## Matchup cleaning

`re.sub(r"^\d{1,2}:\d{2}[AP]M\w{2,3}\s*", "", x)` from
`ScraperWorker.run`.  The pattern is anchored, so at most one
occurrence — the leading one — is removed.  The parser below follows
the regex engine's leftmost/greedy semantics:

* `\d{1,2}` prefers two digits; it falls back to one digit only when
  the second character is not a digit (if two digits are present the
  one-digit alternative would require the second digit to be `:`,
  which is impossible, so the branches are mutually exclusive);
* `\w{2,3}` prefers three word characters, taking two only when a
  third is unavailable (the continuation `\s*` always succeeds, so no
  backtracking can occur);
* `\s*` greedily consumes all following whitespace.
-/

/-- Consume `\d{1,2}:` at the head of the character list.  The cases on
the list shape spell out the regex alternatives: with two leading
digits the third character must be `:`; with one leading digit the
second must be `:` (the two alternatives cannot overlap). -/
def afterHour? : List Char → Option (List Char)
  | a :: b :: c :: r2 =>
    if a.isDigit then
      if b.isDigit then (if c = ':' then some r2 else none)
      else if b = ':' then some (c :: r2)
      else none
    else none
  | [a, b] =>
    if a.isDigit then
      if b.isDigit then none
      else if b = ':' then some []
      else none
    else none
  | _ => none

/-- Consume `\d{2}[AP]M` at the head of the character list. -/
def afterMinAmpm? : List Char → Option (List Char)
  | m1 :: m2 :: a :: q :: rest =>
    if m1.isDigit && m2.isDigit && (a = 'A' || a = 'P') && q = 'M' then some rest
    else none
  | _ => none

/-- Consume `{2,3}` repetitions of a zone character class followed by
`\s*` (both greedy) at the head of the character list.  The class is a
parameter so that the source's `\w` and the spec's "letter" reading can
be compared. -/
def zoneRestBy? (good : Char → Bool) : List Char → Option (List Char)
  | a :: b :: c :: r2 =>
    if good a && good b then
      if good c then some (List.dropWhile isSpaceChar r2)
      else some (List.dropWhile isSpaceChar (c :: r2))
    else none
  | [a, b] => if good a && good b then some [] else none
  | _ => none

/-- Match the anchored pattern `^\d{1,2}:\d{2}[AP]M` + zone-class`{2,3}`
+ `\s*`, returning the characters after the matched leading span. -/
def stripTimeRestBy? (good : Char → Bool) (cs : List Char) : Option (List Char) :=
  (afterHour? cs).bind fun r1 =>
    (afterMinAmpm? r1).bind fun r2 =>
      zoneRestBy? good r2

/-- The source's zone class: `\w{2,3}\s*`. -/
def stripTimeRest? (cs : List Char) : Option (List Char) :=
  stripTimeRestBy? isWordChar cs

/-- Application of `re.sub` with the anchored time pattern on a character list:
drop the leading match when there is one, else leave unchanged. -/
def cleanMatchupL (cs : List Char) : List Char :=
  match stripTimeRest? cs with
  | some r => r
  | none => cs

/-- The `Matchup` cell cleaning from `ScraperWorker.run`. -/
def cleanMatchup (s : String) : String :=
  String.mk (cleanMatchupL s.data)

/-- Matchup cleaning as the spec's words read: the same time-of-day
pattern but with a "2–3 letter timezone abbreviation", i.e. the zone
class restricted to letters.  Defined for comparison with
`cleanMatchup`, whose zone class is the source regex's `\w`. -/
def cleanMatchupAlpha (s : String) : String :=
  match stripTimeRestBy? Char.isAlpha s.data with
  | some r => String.mk r
  | none => s

/-- Declarative reading of the time pattern: a decomposition into an
hour group (one or two digits), `:`, a two-digit minute group, `A` or
`P`, `M`, a 2–3 character zone group drawn from the class `good`, and
trailing whitespace. -/
def TimePatBy (good : Char → Bool) (p : List Char) : Prop :=
  ∃ hh mm a z ws,
    p = hh ++ ':' :: (mm ++ a :: 'M' :: (z ++ ws)) ∧
    (hh.length = 1 ∨ hh.length = 2) ∧ (∀ c ∈ hh, c.isDigit = true) ∧
    mm.length = 2 ∧ (∀ c ∈ mm, c.isDigit = true) ∧
    (a = 'A' ∨ a = 'P') ∧
    (z.length = 2 ∨ z.length = 3) ∧ (∀ c ∈ z, good c = true) ∧
    (∀ c ∈ ws, isSpaceChar c = true)

/-- The source's instance of the declarative pattern: zone characters
are word characters. -/
def TimePatW (p : List Char) : Prop :=
  TimePatBy isWordChar p

/-!
## Spread / Total cleaning

`re.search(r"[-+]?\d+(\.\d+)?", x)` resp. `re.search(r"\d+(\.\d+)?", x)`:
the leftmost match is returned if one exists, otherwise the cell is
left unchanged.  `\d+` is greedy; the optional fractional group is
taken when a `.` followed by at least one digit is present, again
greedily.  Nothing follows the pattern, so greediness never needs to
backtrack.
-/

/-- Attempt `\d+(\.\d+)?` anchored at the head of the list, returning the
matched characters: the leading digit run, extended by `.` and a second
digit run when the character after the digits is `.` followed by at
least one digit. -/
def unsignedNumAt? (cs : List Char) : Option (List Char) :=
  if (cs.takeWhile Char.isDigit).isEmpty then none
  else
    match cs.dropWhile Char.isDigit with
    | c :: r2 =>
      if c = '.' && !(r2.takeWhile Char.isDigit).isEmpty then
        some (cs.takeWhile Char.isDigit ++ '.' :: r2.takeWhile Char.isDigit)
      else some (cs.takeWhile Char.isDigit)
    | [] => some (cs.takeWhile Char.isDigit)

/-- Attempt `[-+]?\d+(\.\d+)?` anchored at the head of the list.  When the
head is a sign not followed by digits, the empty-sign alternative also
fails (the head character is not a digit), so the position yields no
match. -/
def signedNumAt? : List Char → Option (List Char)
  | [] => none
  | c :: rest =>
    if c = '-' || c = '+' then (unsignedNumAt? rest).map (fun m => c :: m)
    else unsignedNumAt? (c :: rest)

/-- Model of `re.search`: try the anchored matcher at each position, left to right. -/
def searchNum (pat : List Char → Option (List Char)) : List Char → Option (List Char)
  | [] => none
  | c :: rest =>
    match pat (c :: rest) with
    | some m => some m
    | none => searchNum pat rest

/-- The `Spread` cell cleaning from `ScraperWorker.run`: first match of
`[-+]?\d+(\.\d+)?` anywhere in the cell, else the cell unchanged. -/
def cleanSpread (s : String) : String :=
  match searchNum signedNumAt? s.data with
  | some m => String.mk m
  | none => s

/-- The `Total` cell cleaning from `ScraperWorker.run`: first match of
`\d+(\.\d+)?` anywhere in the cell, else the cell unchanged. -/
def cleanTotal (s : String) : String :=
  match searchNum unsignedNumAt? s.data with
  | some m => String.mk m
  | none => s

/-- The `Moneyline` cell cleaning from `ScraperWorker.run`:
`x.replace("−", "-")`, i.e. every U+2212 minus glyph becomes an ASCII
hyphen-minus (a one-character replacement, hence a character map). -/
def cleanMoneyline (s : String) : String :=
  String.mk (s.data.map (fun c => if c = '−' then '-' else c))

/-!
## Numeric coercion

`pd.to_numeric` applied to a column of cell strings raises a
`ValueError` as soon as a value fails to parse.  Its string parser
(`precise_xstrtod`, shared with `read_csv`) skips surrounding ASCII
whitespace, accepts an optional sign, and then either a decimal
numeral or — case-insensitively — the words `inf` / `infinity`, which
parse as float infinities (`NaN` is not among the accepted words).
That fragment is modelled here over `PdNum`: exact rational arithmetic
stands in for finite float64 values (every finite value in the claims
is exactly representable) plus the two signed infinities.  Exponent
forms never reach the parser: a cell containing a digit is always
reduced by the cleaning step to a plain signed numeral.
-/

/-- Result of a successful `pd.to_numeric` on one cell: a finite
float64 value (represented exactly) or a signed infinity. -/
inductive PdNum where
  | finite (q : Rat)
  | inf (neg : Bool)
deriving DecidableEq

/-- Value of a list of decimal digit characters. -/
def decDigitsVal (ds : List Char) : Nat :=
  ds.foldl (fun a c => 10 * a + (c.toNat - 48)) 0

/-- Continue an unsigned decimal parse: `ip` is the leading digit run,
the second argument what follows it.  Nothing may remain, or `.` and a
digit run filling the rest of the string. -/
def parseUnsignedAux? (ip : List Char) : List Char → Option Rat
  | [] => if ip.isEmpty then none else some (decDigitsVal ip : Rat)
  | c :: r2 =>
    if c = '.' && (r2.dropWhile Char.isDigit).isEmpty then
      if ip.isEmpty && (r2.takeWhile Char.isDigit).isEmpty then none
      else
        some ((decDigitsVal ip : Rat) +
          (decDigitsVal (r2.takeWhile Char.isDigit) : Rat) /
            (10 : Rat) ^ (r2.takeWhile Char.isDigit).length)
    else none

/-- Parse an unsigned decimal literal (`digits`, `digits.digits`,
`.digits`, `digits.`) occupying the whole list. -/
def parseUnsigned? (cs : List Char) : Option Rat :=
  parseUnsignedAux? (cs.takeWhile Char.isDigit) (cs.dropWhile Char.isDigit)

/-- Strip ASCII whitespace from both ends, as `precise_xstrtod` skips
leading whitespace and (with `skip_trailing`) trailing whitespace. -/
def stripWs (cs : List Char) : List Char :=
  ((cs.dropWhile isSpaceChar).reverse.dropWhile isSpaceChar).reverse

/-- The case-insensitive infinity words `precise_xstrtod` accepts in
place of a numeral. -/
def isInfWord (cs : List Char) : Bool :=
  cs.map Char.toLower = ['i', 'n', 'f'] ||
  cs.map Char.toLower = ['i', 'n', 'f', 'i', 'n', 'i', 't', 'y']

/-- Parse what follows the optional sign: an infinity word, or an
unsigned decimal numeral carrying the sign into the value. -/
def parseSignedTail? (neg : Bool) (cs : List Char) : Option PdNum :=
  if isInfWord cs then some (PdNum.inf neg)
  else (parseUnsigned? cs).map (fun q => PdNum.finite (if neg then -q else q))

/-- Per-cell numeric coercion, `pd.to_numeric` on one cell string:
surrounding whitespace, an optional sign, then a decimal numeral or an
infinity word. -/
def parseNum? (s : String) : Option PdNum :=
  if (stripWs s.data).head? = some '-' then parseSignedTail? true (stripWs s.data).tail
  else if (stripWs s.data).head? = some '+' then parseSignedTail? false (stripWs s.data).tail
  else parseSignedTail? false (stripWs s.data)

/-!
## Rows, columns, and the per-week transformation

One parsed table row carries the four named cells as raw strings
(`RawRow`); a transformed row carries the cleaned matchup text and the
three coerced numeric columns (`OddsRecord`).  `transformWeek` is the
column-wise body of `ScraperWorker.run` between `pd.concat` and the
export: clean every column, then coerce `Spread`, `Total`, `Moneyline`
in that order, stopping at the first `ValueError`.
-/

/-- One concatenated table row before cleaning.  Further columns of the
source page do not participate in any transformation and are omitted. -/
structure RawRow where
  matchup : String
  spread : String
  total : String
  moneyline : String
deriving DecidableEq

/-- One exported row: cleaned matchup, numeric odds columns. -/
structure OddsRecord where
  matchup : String
  spread : PdNum
  total : PdNum
  moneyline : PdNum
deriving DecidableEq

/-- Model of `pd.to_numeric` over one column: the first unparseable value raises,
with a message naming the offending string. -/
def coerceCol : List String → Except String (List PdNum)
  | [] => Except.ok []
  | x :: xs =>
    match parseNum? x with
    | none => Except.error ("Unable to parse string \"" ++ x ++ "\"")
    | some v =>
      match coerceCol xs with
      | Except.ok vs => Except.ok (v :: vs)
      | Except.error m => Except.error m

/-- Reassemble rows from the per-column results (all four lists have the
same length by construction). -/
def zip4Rec : List String → List PdNum → List PdNum → List PdNum → List OddsRecord
  | m :: ms, a :: arest, b :: brest, c :: crest =>
    ⟨m, a, b, c⟩ :: zip4Rec ms arest brest crest
  | _, _, _, _ => []

/-- The cleaning-plus-coercion pipeline of `ScraperWorker.run`
(lines 72–90): clean `Matchup`, `Spread`, `Total`, `Moneyline`, then
coerce the three numeric columns in source order. -/
def transformWeek (rows : List RawRow) : Except String (List OddsRecord) :=
  Except.bind (coerceCol (rows.map (fun r => cleanSpread r.spread))) fun sv =>
    Except.bind (coerceCol (rows.map (fun r => cleanTotal r.total))) fun tv =>
      Except.bind (coerceCol (rows.map (fun r => cleanMoneyline r.moneyline))) fun lv =>
        Except.ok (zip4Rec (rows.map (fun r => cleanMatchup r.matchup)) sv tv lv)

/-!
## Exceptions and single-week processing

`ScraperWorker.run` catches exactly `(ValueError, WebDriverException)`;
Selenium's `TimeoutException` is a `WebDriverException` subclass.  Any
other exception (e.g. a `KeyError` from a missing `Spread`/`Total`/
`Moneyline` column) escapes the handler.  The fetch-and-parse stage
(`driver.get`, the table wait, `read_html`, `pd.concat`) is abstracted
by an environment `env : Nat → Except Exc (List RawRow)` giving, per
week, either the concatenated raw rows or the exception that stage
raised.
-/

/-- Exception classes relevant to the worker's `except` clause. -/
inductive Exc where
  | valueError (msg : String)
  | webDriver (msg : String)
  | other (msg : String)
deriving DecidableEq

/-- The message interpolated into `f"An error occurred: {error}"`. -/
def Exc.message : Exc → String
  | .valueError m => m
  | .webDriver m => m
  | .other m => m

/-- Whether `except (ValueError, WebDriverException)` catches it. -/
def Exc.catchable : Exc → Bool
  | .valueError _ => true
  | .webDriver _ => true
  | .other _ => false

/-- Embed the pipeline's `ValueError` into the worker's exception
classes. -/
def liftVE : Except String (List OddsRecord) → Except Exc (List OddsRecord)
  | Except.ok recs => Except.ok recs
  | Except.error m => Except.error (Exc.valueError m)

/-- Process one week up to (but excluding) the export: fetch/parse via
the environment, then run the cleaning-plus-coercion pipeline; a
coercion failure surfaces as a `ValueError`. -/
def processWeek (env : Nat → Except Exc (List RawRow)) (w : Nat) :
    Except Exc (List OddsRecord) :=
  Except.bind (env w) fun rows => liftVE (transformWeek rows)

/-!
## Export

`output_file = Path(f"{OUTPUT_PATH}/{current_year-2000:02}{week:02}.xlsx")`,
`output_file.parent.mkdir(exist_ok=True, parents=True)`, then
`all_odds.to_excel(writer, index=False)` inside `pd.ExcelWriter`
(default write mode, so an existing file is overwritten; `to_excel`
writes the header row by default).  The file-system effect is recorded
as an `ExportAction`.
-/

/-- Python `{n:02}` for a natural number: zero-pad to two digits.
(`current_year` comes from `datetime.now()`, so `year - 2000 ≥ 0`.) -/
def pad2 (n : Nat) : String :=
  if n < 10 then "0" ++ Nat.repr n else Nat.repr n

/-- The deterministic output path for `(year, week)`. -/
def outputFile (dir : String) (year week : Nat) : String :=
  dir ++ "/" ++ pad2 (year - 2000) ++ pad2 week ++ ".xlsx"

/-- The recorded file-system effect of exporting one week. -/
structure ExportAction where
  path : String
  mkdirParents : Bool
  header : Bool
  index : Bool
  overwrite : Bool
  rows : List OddsRecord
deriving DecidableEq

/-- Export one week's records: parent directories created, header row
written, no index column, existing file overwritten. -/
def exportWeek (dir : String) (year week : Nat) (recs : List OddsRecord) :
    ExportAction :=
  { path := outputFile dir year week
    mkdirParents := true
    header := true
    index := false
    overwrite := true
    rows := recs }

/-!
## The cancellable run loop

`ScraperWorker.run` iterates `range(start_week, end_week + 1)`.  At the
top of each iteration the cancellation flag `scraping_active` is read;
`active w` records the value read at week `w`'s iteration (the flag is
written only by `stop()`, which sets it to `False`).  The loop body
either exports the week and emits a per-week progress message, or
terminates the loop: by the user-stop `break` (with its progress
message), or by an exception.  The `except` clause emits one error
notification for catchable exceptions; the `finally` clause emits the
`finished` signal on every path, including an escaping exception.
-/

/-- How the `for` loop ended. -/
inductive LoopEnd where
  | completedAll
  | stoppedByUser
  | raised (e : Exc)
deriving DecidableEq

/-- Accumulated effects of the `for` loop. -/
structure LoopOut where
  exports : List (Nat × ExportAction)
  progress : List String
  ending : LoopEnd
deriving DecidableEq

/-- The per-week success message `f"Week {week} data scraped successfully."`. -/
def weekMsg (w : Nat) : String :=
  "Week " ++ Nat.repr w ++ " data scraped successfully."

/-- One non-cancelled iteration: on success export the week, prepend
its progress message, and continue with the remaining weeks' outcome;
on an exception break out of the loop carrying the exception. -/
def loopStep (dir : String) (year w : Nat) :
    Except Exc (List OddsRecord) → LoopOut → LoopOut
  | Except.error e, _ => ⟨[], [], LoopEnd.raised e⟩
  | Except.ok recs, rest =>
    ⟨(w, exportWeek dir year w recs) :: rest.exports,
     weekMsg w :: rest.progress,
     rest.ending⟩

/-- The `for week in range(...)` body, over an explicit list of weeks. -/
def loopGo (env : Nat → Except Exc (List RawRow)) (active : Nat → Bool)
    (dir : String) (year : Nat) : List Nat → LoopOut
  | [] => ⟨[], [], LoopEnd.completedAll⟩
  | w :: ws =>
    if active w then
      loopStep dir year w (processWeek env w) (loopGo env active dir year ws)
    else ⟨[], ["Scraping stopped by user."], LoopEnd.stoppedByUser⟩

/-- Observable outcome of one `ScraperWorker.run` invocation. -/
structure RunResult where
  exports : List (Nat × ExportAction)
  progress : List String
  errors : List String
  finishedEmits : Nat
  escaped : Option String
deriving DecidableEq

/-- The `except (ValueError, WebDriverException)` handler emitting
`f"An error occurred: {error}"` and the `finally` emitting `finished`
on every path; a non-catchable exception escapes the method. -/
def finishRun : LoopOut → RunResult
  | ⟨ex, pr, LoopEnd.completedAll⟩ => ⟨ex, pr, [], 1, none⟩
  | ⟨ex, pr, LoopEnd.stoppedByUser⟩ => ⟨ex, pr, [], 1, none⟩
  | ⟨ex, pr, LoopEnd.raised e⟩ =>
    if e.catchable then
      ⟨ex, pr, ["An error occurred: " ++ e.message], 1, none⟩
    else ⟨ex, pr, [], 1, some e.message⟩

/-- The whole of `ScraperWorker.run` over weeks `[startW, endW]`. -/
def run (env : Nat → Except Exc (List RawRow)) (active : Nat → Bool)
    (dir : String) (year startW endW : Nat) : RunResult :=
  finishRun (loopGo env active dir year (List.range' startW (endW + 1 - startW)))

/-- Terminal states of the run-loop state machine.  Modelled from the
spec: §4.5 maps an error-notification exit to `Failed` and both the
all-weeks and the cancelled exit to `Completed`; the code itself has no
reified state, only the notification behavior. -/
inductive FinalState where
  | completed
  | failed
deriving DecidableEq

/-- The spec's terminal state, read off a run's emissions. -/
def RunResult.finalState (r : RunResult) : FinalState :=
  if r.errors.isEmpty then FinalState.completed else FinalState.failed

/-!
## Input validation

`OddsScraperWindow.validate_inputs` and its inner `validate_week`.
Python's `int()` accepts surrounding whitespace and an optional sign
before the digits; that fragment is modelled (digit-group underscores
are not, as a two-character line edit cannot produce a well-formed
one).
-/

/-- Python `int(str)` on the strings a week line edit can hold. -/
def parseInt? (s : String) : Option Int :=
  let core := ((s.data.dropWhile isSpaceChar).reverse.dropWhile isSpaceChar).reverse
  match core with
  | '-' :: ds =>
    if !ds.isEmpty && ds.all Char.isDigit then some (-(decDigitsVal ds : Int)) else none
  | '+' :: ds =>
    if !ds.isEmpty && ds.all Char.isDigit then some (decDigitsVal ds : Int) else none
  | ds =>
    if !ds.isEmpty && ds.all Char.isDigit then some (decDigitsVal ds : Int) else none

/-- The inner `validate_week`: `none` means valid, `some msg` the
status-line rejection message. -/
def validate_week (weekStr label : String) : Option String :=
  match parseInt? weekStr with
  | none => some (label ++ " must be a number between 1 and 18.")
  | some week =>
    if week < 1 || week > 18 then some (label ++ " must be between 1 and 18.")
    else none

/-- Model of `validate_inputs`: returns whether a run may start, paired with the
status message set on rejection. -/
def validate_inputs (startStr endStr : String) : Bool × Option String :=
  match validate_week startStr "Start week" with
  | some msg => (false, some msg)
  | none =>
    match validate_week endStr "End week" with
    | some msg => (false, some msg)
    | none =>
      match parseInt? startStr, parseInt? endStr with
      | some a, some b =>
        if b < a then (false, some "End week must be greater than or equal to start week.")
        else (true, none)
      | _, _ => (false, none)

/-!
## Concrete fixtures

Small environments and flag functions used to instantiate the run-loop
theorems on concrete inputs.
-/

/-- Every week fetches and parses to an empty table row list. -/
def envEmptyOk : Nat → Except Exc (List RawRow) := fun _ => Except.ok []

/-- Week 4's page never renders a table; other weeks are empty successes. -/
def envTimeout4 : Nat → Except Exc (List RawRow) := fun w =>
  if w = 4 then Except.error (Exc.webDriver "timeout waiting for table")
  else Except.ok []

/-- Week 3's parsed tables lack a Spread column; other weeks succeed. -/
def envKeyErr3 : Nat → Except Exc (List RawRow) := fun w =>
  if w = 3 then Except.error (Exc.other "KeyError: Spread") else Except.ok []

/-- The cancellation flag is never set. -/
def activeAll : Nat → Bool := fun _ => true

/-- The cancellation flag is observed set from week 3 onward. -/
def activeBefore3 : Nat → Bool := fun w => decide (w < 3)

example : cleanSpread "-3.5 (-110)" = "-3.5" := by decide
example : cleanTotal "47.5u" = "47.5" := by decide
example : cleanMoneyline "−150" = "-150" := by decide
example : parseNum? "-150" = some (PdNum.finite (-150)) := by decide
example : parseNum? "inf" = some (PdNum.inf false) := by decide
example : parseNum? " -Infinity " = some (PdNum.inf true) := by decide
example : parseNum? "+INF" = some (PdNum.inf false) := by decide
example : parseNum? "nan" = none := by decide
example : parseNum? "infx" = none := by decide
example : parseNum? " 5 " = some (PdNum.finite 5) := by decide
example : cleanMatchup "7:00PMEST Team A vs Team B" = "Team A vs Team B" := by decide
example : cleanMatchup "7:00PMEST8:00PMEST A" = "8:00PMEST A" := by decide
example : cleanMatchup "8:00PMEST A" = "A" := by decide
example : (validate_inputs "0" "3").2 = some "Start week must be between 1 and 18." := by decide
example : (validate_inputs "5" "3").2
    = some "End week must be greater than or equal to start week." := by decide
example : (validate_inputs "x" "3").2
    = some "Start week must be a number between 1 and 18." := by decide
example : validate_inputs "1" "18" = (true, none) := by decide

/-!
## Lemmas about the time-pattern parser

Soundness: a successful parse yields a decomposition in the
declarative grammar.  Completeness: any string beginning with a
declarative decomposition parses successfully.
-/

theorem mem_takeWhile_sat {p : Char → Bool} :
    ∀ {l : List Char} {c : Char}, c ∈ l.takeWhile p → p c = true := by
  intro l
  induction l with
  | nil => intro c h; simp [List.takeWhile] at h
  | cons a t ih =>
    intro c h
    by_cases ha : p a
    · rw [List.takeWhile_cons_of_pos ha] at h
      rcases List.mem_cons.mp h with rfl | h2
      · exact ha
      · exact ih h2
    · rw [List.takeWhile_cons_of_neg ha] at h
      simp at h

theorem colon_not_digit : (':' : Char).isDigit = false := by decide

theorem afterHour?_sound {cs r : List Char} (h : afterHour? cs = some r) :
    (∃ a, cs = a :: ':' :: r ∧ a.isDigit = true) ∨
    (∃ a b, cs = a :: b :: ':' :: r ∧ a.isDigit = true ∧ b.isDigit = true) := by
  rcases cs with _ | ⟨a, _ | ⟨b, _ | ⟨c, r2⟩⟩⟩
  · simp [afterHour?] at h
  · simp [afterHour?] at h
  · simp only [afterHour?] at h
    split_ifs at h with ha hb hb2
    subst hb2
    injection h with h
    subst h
    exact Or.inl ⟨a, rfl, ha⟩
  · simp only [afterHour?] at h
    split_ifs at h with ha hb hc hb2
    · subst hc
      injection h with h
      subst h
      exact Or.inr ⟨a, b, rfl, ha, hb⟩
    · subst hb2
      injection h with h
      subst h
      exact Or.inl ⟨a, rfl, ha⟩

theorem afterHour?_one {a : Char} {r : List Char} (ha : a.isDigit = true) :
    afterHour? (a :: ':' :: r) = some r := by
  rcases r with _ | ⟨c, r2⟩ <;>
    simp [afterHour?, ha, colon_not_digit]

theorem afterHour?_two {a b : Char} {r : List Char}
    (ha : a.isDigit = true) (hb : b.isDigit = true) :
    afterHour? (a :: b :: ':' :: r) = some r := by
  simp [afterHour?, ha, hb]

theorem afterMinAmpm?_sound {cs r : List Char} (h : afterMinAmpm? cs = some r) :
    ∃ m1 m2 a, cs = m1 :: m2 :: a :: 'M' :: r ∧
      m1.isDigit = true ∧ m2.isDigit = true ∧ (a = 'A' ∨ a = 'P') := by
  rcases cs with _ | ⟨m1, _ | ⟨m2, _ | ⟨a, _ | ⟨q, rest⟩⟩⟩⟩ <;>
    simp only [afterMinAmpm?] at h
  · simp at h
  · simp at h
  · simp at h
  · simp at h
  · split_ifs at h with hcond
    simp only [Bool.and_eq_true, decide_eq_true_eq, Bool.or_eq_true] at hcond
    obtain ⟨⟨⟨h1, h2⟩, h3⟩, h4⟩ := hcond
    subst h4
    injection h with h
    subst h
    exact ⟨m1, m2, a, rfl, h1, h2, h3⟩

theorem afterMinAmpm?_eq {m1 m2 a : Char} {r : List Char}
    (h1 : m1.isDigit = true) (h2 : m2.isDigit = true) (h3 : a = 'A' ∨ a = 'P') :
    afterMinAmpm? (m1 :: m2 :: a :: 'M' :: r) = some r := by
  rcases h3 with rfl | rfl <;> simp [afterMinAmpm?, h1, h2]

theorem zoneRestBy?_sound {good : Char → Bool} {cs r : List Char}
    (h : zoneRestBy? good cs = some r) :
    ∃ z ws, cs = z ++ ws ++ r ∧ (z.length = 2 ∨ z.length = 3) ∧
      (∀ c ∈ z, good c = true) ∧ (∀ c ∈ ws, isSpaceChar c = true) := by
  rcases cs with _ | ⟨a, _ | ⟨b, _ | ⟨c, r2⟩⟩⟩
  · simp [zoneRestBy?] at h
  · simp [zoneRestBy?] at h
  · simp only [zoneRestBy?] at h
    split_ifs at h with hab
    injection h with h
    subst h
    simp only [Bool.and_eq_true] at hab
    refine ⟨[a, b], [], by simp, Or.inl rfl, ?_, by intro x hx; simp at hx⟩
    intro x hx
    simp only [List.mem_cons, List.not_mem_nil, or_false] at hx
    rcases hx with rfl | rfl
    · exact hab.1
    · exact hab.2
  · simp only [zoneRestBy?] at h
    split_ifs at h with hab hc
    · simp only [Bool.and_eq_true] at hab
      refine ⟨[a, b, c], r2.takeWhile isSpaceChar, ?_, Or.inr rfl, ?_,
        fun x hx => mem_takeWhile_sat hx⟩
      · injection h with h
        subst h
        simp only [List.cons_append, List.nil_append, List.append_assoc]
        rw [List.takeWhile_append_dropWhile]
      · intro x hx
        simp only [List.mem_cons, List.not_mem_nil, or_false] at hx
        rcases hx with rfl | rfl | rfl
        · exact hab.1
        · exact hab.2
        · exact hc
    · simp only [Bool.and_eq_true] at hab
      refine ⟨[a, b], (c :: r2).takeWhile isSpaceChar, ?_, Or.inl rfl, ?_,
        fun x hx => mem_takeWhile_sat hx⟩
      · injection h with h
        subst h
        simp only [List.cons_append, List.nil_append, List.append_assoc]
        rw [List.takeWhile_append_dropWhile]
      · intro x hx
        simp only [List.mem_cons, List.not_mem_nil, or_false] at hx
        rcases hx with rfl | rfl
        · exact hab.1
        · exact hab.2

theorem zoneRestBy?_isSome {good : Char → Bool} {a b : Char} (t : List Char)
    (hga : good a = true) (hgb : good b = true) :
    (zoneRestBy? good (a :: b :: t)).isSome = true := by
  rcases t with _ | ⟨c, r2⟩
  · simp [zoneRestBy?, hga, hgb]
  · by_cases hc : good c <;> simp [zoneRestBy?, hga, hgb, hc]

theorem stripTimeRestBy?_sound {good : Char → Bool} {cs r : List Char}
    (h : stripTimeRestBy? good cs = some r) :
    ∃ p, cs = p ++ r ∧ TimePatBy good p := by
  unfold stripTimeRestBy? at h
  cases h1 : afterHour? cs with
  | none => rw [h1] at h; simp at h
  | some r1 =>
    rw [h1, Option.some_bind] at h
    cases h2 : afterMinAmpm? r1 with
    | none => rw [h2] at h; simp at h
    | some r2 =>
      rw [h2, Option.some_bind] at h
      obtain ⟨z, ws, hzw, hzlen, hzgood, hws⟩ := zoneRestBy?_sound h
      obtain ⟨m1, m2, a, hm, hm1, hm2, ha⟩ := afterMinAmpm?_sound h2
      rcases afterHour?_sound h1 with ⟨d, hcs, hd⟩ | ⟨d1, d2, hcs, hd1, hd2⟩
      · refine ⟨[d] ++ ':' :: ([m1, m2] ++ a :: 'M' :: (z ++ ws)), ?_, ?_⟩
        · rw [hcs, hm, hzw]
          simp
        · refine ⟨[d], [m1, m2], a, z, ws, rfl, Or.inl rfl, ?_, rfl, ?_, ha,
            hzlen, hzgood, hws⟩
          · intro c hc
            simp only [List.mem_singleton] at hc
            subst hc
            exact hd
          · intro c hc
            simp only [List.mem_cons, List.not_mem_nil, or_false] at hc
            rcases hc with rfl | rfl
            · exact hm1
            · exact hm2
      · refine ⟨[d1, d2] ++ ':' :: ([m1, m2] ++ a :: 'M' :: (z ++ ws)), ?_, ?_⟩
        · rw [hcs, hm, hzw]
          simp
        · refine ⟨[d1, d2], [m1, m2], a, z, ws, rfl, Or.inr rfl, ?_, rfl, ?_, ha,
            hzlen, hzgood, hws⟩
          · intro c hc
            simp only [List.mem_cons, List.not_mem_nil, or_false] at hc
            rcases hc with rfl | rfl
            · exact hd1
            · exact hd2
          · intro c hc
            simp only [List.mem_cons, List.not_mem_nil, or_false] at hc
            rcases hc with rfl | rfl
            · exact hm1
            · exact hm2

theorem stripTimeRestBy?_isSome {good : Char → Bool} {p : List Char} (r : List Char)
    (hp : TimePatBy good p) :
    (stripTimeRestBy? good (p ++ r)).isSome = true := by
  obtain ⟨hh, mm, a, z, ws, hpe, hhlen, hhdig, hmmlen, hmmdig, hap, hzlen, hzgood, hws⟩ := hp
  subst hpe
  obtain ⟨m1, m2, hmm⟩ := List.length_eq_two.mp hmmlen
  subst hmm
  have hm1 : m1.isDigit = true := hmmdig m1 (by simp)
  have hm2 : m2.isDigit = true := hmmdig m2 (by simp)
  have hzone : ∀ t : List Char, (zoneRestBy? good (z ++ ws ++ t)).isSome = true := by
    intro t
    rcases hzlen with hz2 | hz3
    · obtain ⟨z1, z2, hz⟩ := List.length_eq_two.mp hz2
      subst hz
      have hshape : (([z1, z2] : List Char) ++ ws ++ t) = z1 :: z2 :: (ws ++ t) := by simp
      rw [hshape]
      exact zoneRestBy?_isSome _ (hzgood z1 (by simp)) (hzgood z2 (by simp))
    · obtain ⟨z1, z2, z3, hz⟩ := List.length_eq_three.mp hz3
      subst hz
      have hshape : (([z1, z2, z3] : List Char) ++ ws ++ t) = z1 :: z2 :: z3 :: (ws ++ t) := by
        simp
      rw [hshape]
      exact zoneRestBy?_isSome _ (hzgood z1 (by simp)) (hzgood z2 (by simp))
  rcases hhlen with h1 | h2
  · obtain ⟨d, hd⟩ := List.length_eq_one.mp h1
    subst hd
    have hdd : d.isDigit = true := hhdig d (by simp)
    have hshape : (([d] ++ ':' :: ([m1, m2] ++ a :: 'M' :: (z ++ ws))) ++ r)
        = d :: ':' :: m1 :: m2 :: a :: 'M' :: (z ++ ws ++ r) := by simp
    rw [hshape]
    unfold stripTimeRestBy?
    rw [afterHour?_one hdd, Option.some_bind, afterMinAmpm?_eq hm1 hm2 hap,
      Option.some_bind]
    exact hzone r
  · obtain ⟨d1, d2, hd⟩ := List.length_eq_two.mp h2
    subst hd
    have hd1 : d1.isDigit = true := hhdig d1 (by simp)
    have hd2 : d2.isDigit = true := hhdig d2 (by simp)
    have hshape : (([d1, d2] ++ ':' :: ([m1, m2] ++ a :: 'M' :: (z ++ ws))) ++ r)
        = d1 :: d2 :: ':' :: m1 :: m2 :: a :: 'M' :: (z ++ ws ++ r) := by simp
    rw [hshape]
    unfold stripTimeRestBy?
    rw [afterHour?_two hd1 hd2, Option.some_bind, afterMinAmpm?_eq hm1 hm2 hap,
      Option.some_bind]
    exact hzone r

theorem cleanMatchup_of_none {s : String} (h : stripTimeRest? s.data = none) :
    cleanMatchup s = s := by
  simp only [cleanMatchup, cleanMatchupL, h]

theorem cleanMatchup_of_some {s : String} {r : List Char}
    (h : stripTimeRest? s.data = some r) :
    cleanMatchup s = String.mk r := by
  simp only [cleanMatchup, cleanMatchupL, h]

theorem noTimePat_of_strip_none {cs : List Char}
    (h : stripTimeRestBy? isWordChar cs = none) :
    ∀ p r : List Char, cs = p ++ r → ¬ TimePatW p := by
  intro p r hpr hpat
  have hs := @stripTimeRestBy?_isSome isWordChar _ r hpat
  rw [← hpr, h] at hs
  simp at hs

/-!
## Lemmas about numeric search and coercion

When the search for a signed decimal number finds nothing, the string
contains no digit at all, and the numeric parser must also fail.
-/

theorem exceptBind_error {ε α β : Type} (e : ε) (f : α → Except ε β) :
    Except.bind (Except.error e) f = (Except.error e : Except ε β) := rfl

theorem processWeek_fetch_error {env : Nat → Except Exc (List RawRow)} {w : Nat}
    {e : Exc} (henv : env w = Except.error e) :
    processWeek env w = Except.error e := by
  unfold processWeek
  rw [henv, exceptBind_error]

theorem loopGo_stop {env : Nat → Except Exc (List RawRow)} {active : Nat → Bool}
    {dir : String} {year w : Nat} (ws : List Nat) (hw : active w = false) :
    loopGo env active dir year (w :: ws) =
      ⟨[], ["Scraping stopped by user."], LoopEnd.stoppedByUser⟩ := by
  simp [loopGo, hw]

theorem loopGo_raise {env : Nat → Except Exc (List RawRow)} {active : Nat → Bool}
    {dir : String} {year w : Nat} {e : Exc} (ws : List Nat) (hw : active w = true)
    (hp : processWeek env w = Except.error e) :
    loopGo env active dir year (w :: ws) = ⟨[], [], LoopEnd.raised e⟩ := by
  simp [loopGo, hw, hp, loopStep]

theorem loopGo_all_ok {env : Nat → Except Exc (List RawRow)} {active : Nat → Bool}
    {dir : String} {year : Nat} {ws : List Nat}
    (h : ∀ w ∈ ws, active w = true ∧ ∃ recs, processWeek env w = Except.ok recs) :
    (loopGo env active dir year ws).exports.map Prod.fst = ws ∧
    (loopGo env active dir year ws).progress = ws.map weekMsg ∧
    (loopGo env active dir year ws).ending = LoopEnd.completedAll := by
  induction ws with
  | nil => exact ⟨rfl, rfl, rfl⟩
  | cons w t ih =>
    obtain ⟨hw, recs, hrec⟩ := h w (by simp)
    obtain ⟨ih1, ih2, ih3⟩ := ih (fun w' hw' => h w' (by simp [hw']))
    simp only [loopGo, hw, if_true, hrec, loopStep]
    exact ⟨by simp [ih1], by simp [ih2], ih3⟩

theorem loopGo_append_ok {env : Nat → Except Exc (List RawRow)} {active : Nat → Bool}
    {dir : String} {year : Nat} {ws1 : List Nat} (ws2 : List Nat)
    (h : ∀ w ∈ ws1, active w = true ∧ ∃ recs, processWeek env w = Except.ok recs) :
    loopGo env active dir year (ws1 ++ ws2) =
      ⟨(loopGo env active dir year ws1).exports ++ (loopGo env active dir year ws2).exports,
       (loopGo env active dir year ws1).progress ++ (loopGo env active dir year ws2).progress,
       (loopGo env active dir year ws2).ending⟩ := by
  induction ws1 with
  | nil => rfl
  | cons w t ih =>
    obtain ⟨hw, recs, hrec⟩ := h w (by simp)
    have ih2 := ih (fun w' hw' => h w' (by simp [hw']))
    simp only [List.cons_append, loopGo, hw, if_true, hrec, loopStep,
      List.append_eq, ih2]

theorem loopGo_exports_weeks_sublist (env : Nat → Except Exc (List RawRow))
    (active : Nat → Bool) (dir : String) (year : Nat) (ws : List Nat) :
    ((loopGo env active dir year ws).exports.map Prod.fst).Sublist ws := by
  induction ws with
  | nil => simp [loopGo]
  | cons w t ih =>
    by_cases hw : active w
    · simp only [loopGo, hw, if_true]
      cases hp : processWeek env w with
      | error e => simp [loopStep, List.nil_sublist]
      | ok recs =>
        simp only [loopStep, List.map_cons]
        exact List.Sublist.cons₂ _ ih
    · simp [loopGo, hw, List.nil_sublist]

theorem loopGo_exports_shape (env : Nat → Except Exc (List RawRow))
    (active : Nat → Bool) (dir : String) (year : Nat) (ws : List Nat) :
    ∀ a ∈ (loopGo env active dir year ws).exports,
      ∃ recs, a.2 = exportWeek dir year a.1 recs := by
  induction ws with
  | nil => simp [loopGo]
  | cons w t ih =>
    by_cases hw : active w
    · simp only [loopGo, hw, if_true]
      cases hp : processWeek env w with
      | error e =>
        simp [loopStep]
      | ok recs =>
        simp only [loopStep]
        intro a ha
        rcases List.mem_cons.mp ha with rfl | ha2
        · exact ⟨recs, rfl⟩
        · exact ih a ha2
    · simp [loopGo, hw]

theorem finishRun_exports (l : LoopOut) : (finishRun l).exports = l.exports := by
  rcases l with ⟨ex, pr, ending⟩
  cases ending with
  | completedAll => rfl
  | stoppedByUser => rfl
  | raised e =>
    simp only [finishRun]
    split
    · rfl
    · rfl

theorem finishRun_finished (l : LoopOut) : (finishRun l).finishedEmits = 1 := by
  rcases l with ⟨ex, pr, ending⟩
  cases ending with
  | completedAll => rfl
  | stoppedByUser => rfl
  | raised e =>
    simp only [finishRun]
    split
    · rfl
    · rfl

theorem range'_split {s w e : Nat} (hsw : s ≤ w) (hwe : w ≤ e) :
    List.range' s (e + 1 - s) = List.range' s (w - s) ++ (w :: List.range' (w + 1) (e - w)) := by
  have h1 : e + 1 - s = ((e - w) + 1) + (w - s) := by omega
  rw [h1, ← List.range'_append_1 s (w - s) ((e - w) + 1)]
  have h2 : s + (w - s) = w := by omega
  rw [h2, List.range'_succ]

theorem hpre_range' {env : Nat → Except Exc (List RawRow)} {active : Nat → Bool}
    {s w : Nat}
    (hpre : ∀ w', s ≤ w' → w' < w →
      active w' = true ∧ ∃ recs, processWeek env w' = Except.ok recs) :
    ∀ w' ∈ List.range' s (w - s),
      active w' = true ∧ ∃ recs, processWeek env w' = Except.ok recs := by
  intro w' hw'
  rw [List.mem_range'_1] at hw'
  exact hpre w' hw'.1 (by omega)

theorem validate_week_nonnum {wstr label : String} (h : parseInt? wstr = none) :
    validate_week wstr label = some (label ++ " must be a number between 1 and 18.") := by
  simp [validate_week, h]

theorem validate_week_range {wstr label : String} {a : Int}
    (h : parseInt? wstr = some a) (hout : a < 1 ∨ 18 < a) :
    validate_week wstr label = some (label ++ " must be between 1 and 18.") := by
  simp only [validate_week, h]
  rw [if_pos]
  simp only [Bool.or_eq_true, decide_eq_true_eq]
  omega

theorem validate_week_ok {wstr label : String} {a : Int}
    (h : parseInt? wstr = some a) (h1 : 1 ≤ a) (h2 : a ≤ 18) :
    validate_week wstr label = none := by
  simp only [validate_week, h]
  rw [if_neg]
  simp only [Bool.or_eq_true, decide_eq_true_eq]
  omega

/-!
## Claim theorems
-/

/-- C4: on every termination path of the worker's `run` — all weeks
completed, stopped by cancellation, or aborted on an error (caught or
escaping) — exactly one final `finished` notification is emitted. -/
theorem C4_finished_always_once (env : Nat → Except Exc (List RawRow))
    (active : Nat → Bool) (dir : String) (year s e : Nat) :
    (run env active dir year s e).finishedEmits = 1 := by
  unfold run
  exact finishRun_finished _

/-- C5 counterexample: the Matchup time-prefix removal is not
idempotent.  Stripping `"7:00PMEST8:00PMEST A"` once removes
`7:00PMEST` (the zone takes three word characters, leaving `8` in
place) and exposes a second time prefix, which a second application
also removes. -/
theorem C5_counterexample :
    cleanMatchup (cleanMatchup "7:00PMEST8:00PMEST A")
      ≠ cleanMatchup "7:00PMEST8:00PMEST A" := by decide

/-- C5 amended: the Matchup time-prefix removal is idempotent on every
string whose once-stripped value does not itself begin with a
time-of-day prefix; re-exposure of a second prefix (as in the
counterexample) is the only way idempotence can fail. -/
theorem C5_strip_idempotent_unless_reexposed (x : String)
    (h : ∀ p r : List Char, (cleanMatchup x).data = p ++ r → ¬ TimePatW p) :
    cleanMatchup (cleanMatchup x) = cleanMatchup x := by
  cases hs : stripTimeRest? (cleanMatchup x).data with
  | none => exact cleanMatchup_of_none hs
  | some r =>
    unfold stripTimeRest? at hs
    obtain ⟨p, hp, hpat⟩ := stripTimeRestBy?_sound hs
    exact absurd hpat (h p r hp)

/-- C5 witness: stripping `"7:00PMEST Team A vs Team B"` yields a value
with no further time prefix, so a second application is a no-op. -/
theorem C5_witness :
    cleanMatchup (cleanMatchup "7:00PMEST Team A vs Team B")
      = cleanMatchup "7:00PMEST Team A vs Team B" := by
  apply C5_strip_idempotent_unless_reexposed
  intro p r hp hpat
  have hs := @stripTimeRestBy?_isSome isWordChar _ r hpat
  rw [← hp] at hs
  exact absurd hs (by decide)

/-- C9 counterexample: the claim's "2–3 letter timezone abbreviation"
reading differs from the code.  The source regex accepts any word
characters (`\w{2,3}`) in the zone position, so `"7:00PM12 X"` is
stripped by the code although `12` is not a letter zone. -/
theorem C9_counterexample :
    cleanMatchup "7:00PM12 X" ≠ cleanMatchupAlpha "7:00PM12 X" := by decide

/-- C9 amended: the Matchup cleaning removes a leading prefix exactly
when it matches a time-of-day (1–2 digit hour, colon, two minute
digits) followed by `A` or `P` plus `M` and 2–3 word characters
(letters, digits, or underscore — not only letters), optionally
followed by whitespace, and removes nothing otherwise; e.g.
`"7:00PMEST Team A vs Team B"` becomes `"Team A vs Team B"`. -/
theorem C9_time_pattern_characterization :
    (∀ s : String,
      (∃ p r, s.data = p ++ r ∧ TimePatW p ∧ cleanMatchup s = String.mk r) ∨
      (cleanMatchup s = s ∧ ∀ p r, s.data = p ++ r → ¬ TimePatW p)) ∧
    cleanMatchup "7:00PMEST Team A vs Team B" = "Team A vs Team B" := by
  constructor
  · intro s
    cases hs : stripTimeRest? s.data with
    | some r =>
      left
      have hs2 := hs
      unfold stripTimeRest? at hs2
      obtain ⟨p, hp, hpat⟩ := stripTimeRestBy?_sound hs2
      exact ⟨p, r, hp, hpat, cleanMatchup_of_some hs⟩
    | none =>
      right
      have hs2 := hs
      unfold stripTimeRest? at hs2
      exact ⟨cleanMatchup_of_none hs, noTimePat_of_strip_none hs2⟩
  · decide

/-- C9 witness: `"Team A vs Team B"` admits no time-pattern
decomposition, so by the characterization it is left unchanged. -/
theorem C9_witness :
    cleanMatchup "Team A vs Team B" = "Team A vs Team B" := by
  rcases C9_time_pattern_characterization.1 "Team A vs Team B" with
    ⟨p, r, hp, hpat, _⟩ | ⟨heq, _⟩
  · have hs := @stripTimeRestBy?_isSome isWordChar _ r hpat
    rw [← hp] at hs
    exact absurd hs (by decide)
  · exact heq

/-- C6: the cleaning-plus-coercion pipeline maps the Spread cell
`"-3.5 (-110)"` to `-3.5` (first signed decimal substring), the Total
cell `"47.5u"` to `47.5` (first unsigned decimal substring), and the
Moneyline cell `"−150"` (U+2212 minus glyph) to `-150`. -/
theorem C6_numeric_extraction_examples :
    parseNum? (cleanSpread "-3.5 (-110)") = some (PdNum.finite (-(7 / 2 : Rat))) ∧
    parseNum? (cleanTotal "47.5u") = some (PdNum.finite (95 / 2 : Rat)) ∧
    parseNum? (cleanMoneyline "−150") = some (PdNum.finite (-150 : Rat)) := by
  refine ⟨?_, ?_, by decide⟩
  · have h : parseNum? (cleanSpread "-3.5 (-110)")
        = some (PdNum.finite
            (-(((3 : Nat) : Rat) + ((5 : Nat) : Rat) / (10 : Rat) ^ (1 : Nat)))) := rfl
    rw [h]
    simp only [Option.some.injEq, PdNum.finite.injEq]
    norm_num
  · have h : parseNum? (cleanTotal "47.5u")
        = some (PdNum.finite
            (((47 : Nat) : Rat) + ((5 : Nat) : Rat) / (10 : Rat) ^ (1 : Nat))) := rfl
    rw [h]
    simp only [Option.some.injEq, PdNum.finite.injEq]
    norm_num

/-- C8: for every run, each export action targets the deterministic
path `{dir}/{(year-2000) two digits}{week two digits}.xlsx`, creates
missing parent directories, writes a header row, omits the index
column, and overwrites any existing file; and no week is exported more
than once (the exported week numbers are distinct and lie within the
requested range). -/
theorem C8_export_deterministic_path (env : Nat → Except Exc (List RawRow))
    (active : Nat → Bool) (dir : String) (year s e : Nat) :
    (((run env active dir year s e).exports.map Prod.fst).Nodup) ∧
    ∀ a ∈ (run env active dir year s e).exports,
      a.2.path = dir ++ "/" ++ pad2 (year - 2000) ++ pad2 a.1 ++ ".xlsx" ∧
      a.2.mkdirParents = true ∧ a.2.header = true ∧ a.2.index = false ∧
      a.2.overwrite = true ∧ s ≤ a.1 ∧ a.1 ≤ e := by
  unfold run
  rw [finishRun_exports]
  constructor
  · exact (loopGo_exports_weeks_sublist env active dir year _).nodup
      (List.nodup_range' _ _)
  · intro a ha
    obtain ⟨recs, hshape⟩ := loopGo_exports_shape env active dir year _ a ha
    have hmem : a.1 ∈ List.range' s (e + 1 - s) := by
      have hsub := loopGo_exports_weeks_sublist env active dir year
        (List.range' s (e + 1 - s))
      exact hsub.mem (List.mem_map_of_mem Prod.fst ha)
    rw [List.mem_range'_1] at hmem
    refine ⟨?_, ?_, ?_, ?_, ?_, by omega, by omega⟩
    · rw [hshape]
      rfl
    · rw [hshape]
      rfl
    · rw [hshape]
      rfl
    · rw [hshape]
      rfl
    · rw [hshape]
      rfl

/-- C8 witness: a one-week run over week 3 of 2024 exports to
`out/2403.xlsx` with the documented flags. -/
theorem C8_witness :
    (((run envEmptyOk activeAll "out" 2024 3 3).exports.map Prod.fst).Nodup) ∧
    (3, exportWeek "out" 2024 3 []).2.path
        = "out" ++ "/" ++ pad2 (2024 - 2000) ++ pad2 (3, exportWeek "out" 2024 3 []).1
            ++ ".xlsx" ∧
    (3, exportWeek "out" 2024 3 []).2.mkdirParents = true ∧
    (3, exportWeek "out" 2024 3 []).2.header = true ∧
    (3, exportWeek "out" 2024 3 []).2.index = false ∧
    (3, exportWeek "out" 2024 3 []).2.overwrite = true ∧
    (3 : Nat) ≤ (3, exportWeek "out" 2024 3 []).1 ∧
    (3, exportWeek "out" 2024 3 []).1 ≤ 3 := by
  refine ⟨(C8_export_deterministic_path envEmptyOk activeAll "out" 2024 3 3).1, ?_⟩
  exact (C8_export_deterministic_path envEmptyOk activeAll "out" 2024 3 3).2
    (3, exportWeek "out" 2024 3 []) (by decide)

/-- C2: if a catchable failure (`ValueError` / `WebDriverException`,
which covers timeouts) occurs while processing week `w` of a
`[s, e]` run whose earlier weeks all succeeded, then exactly the weeks
before `w` have been exported (in order), their progress messages are
the only ones emitted (weeks after `w` are never attempted), exactly
one error notification containing the failure's message is emitted, no
exception escapes, and the run terminates in the `Failed` state. -/
theorem C2_failure_aborts_run (env : Nat → Except Exc (List RawRow))
    (active : Nat → Bool) (dir : String) (year s e w : Nat) (exc : Exc)
    (hsw : s ≤ w) (hwe : w ≤ e)
    (hpre : ∀ w', s ≤ w' → w' < w →
      active w' = true ∧ ∃ recs, processWeek env w' = Except.ok recs)
    (hw : active w = true)
    (hfail : processWeek env w = Except.error exc)
    (hcatch : exc.catchable = true) :
    (run env active dir year s e).exports.map Prod.fst = List.range' s (w - s) ∧
    (run env active dir year s e).progress = (List.range' s (w - s)).map weekMsg ∧
    (run env active dir year s e).errors = ["An error occurred: " ++ exc.message] ∧
    (run env active dir year s e).escaped = none ∧
    (run env active dir year s e).finalState = FinalState.failed := by
  have hpre' := hpre_range' hpre
  obtain ⟨hE, hP, _⟩ := @loopGo_all_ok env active dir year _ hpre'
  have hrun : run env active dir year s e =
      ⟨(loopGo env active dir year (List.range' s (w - s))).exports ++ [],
       (loopGo env active dir year (List.range' s (w - s))).progress ++ [],
       ["An error occurred: " ++ exc.message], 1, none⟩ := by
    unfold run
    rw [range'_split hsw hwe, loopGo_append_ok _ hpre', loopGo_raise _ hw hfail]
    simp only [finishRun]
    rw [if_pos hcatch]
  rw [hrun]
  refine ⟨?_, ?_, rfl, rfl, rfl⟩
  · simp [hE]
  · simp [hP]

/-- C2 witness: a `[1, 6]` run whose week-4 page times out exports
weeks 1–3 only, emits one error notification with the timeout message,
and ends `Failed`. -/
theorem C2_witness :
    (run envTimeout4 activeAll "out" 2024 1 6).exports.map Prod.fst
      = List.range' 1 3 ∧
    (run envTimeout4 activeAll "out" 2024 1 6).errors
      = ["An error occurred: timeout waiting for table"] ∧
    (run envTimeout4 activeAll "out" 2024 1 6).finalState = FinalState.failed := by
  obtain ⟨h1, h2, h3, h4, h5⟩ := C2_failure_aborts_run envTimeout4 activeAll "out" 2024
    1 6 4 (Exc.webDriver "timeout waiting for table")
    (by decide) (by decide)
    (fun w' hlo hhi => ⟨rfl, ⟨[], by
      unfold processWeek envTimeout4
      rw [if_neg (by omega)]
      rfl⟩⟩)
    rfl rfl rfl
  exact ⟨h1, h3, h5⟩

/-- C3: if the cancellation flag is observed unset for every week
before `w` (all succeeding) and set at week `w` of a `[s, e]` run,
then exactly the weeks before `w` are exported, a "stopped by user"
progress notification follows their progress messages, no error is
emitted, and the run ends `Completed`, not `Failed`.  The flag is read
only at the top of each iteration: week `w - 1`, already started,
still completes and exports. -/
theorem C3_cancellation_completes (env : Nat → Except Exc (List RawRow))
    (active : Nat → Bool) (dir : String) (year s e w : Nat)
    (hsw : s ≤ w) (hwe : w ≤ e)
    (hpre : ∀ w', s ≤ w' → w' < w →
      active w' = true ∧ ∃ recs, processWeek env w' = Except.ok recs)
    (hstop : active w = false) :
    (run env active dir year s e).exports.map Prod.fst = List.range' s (w - s) ∧
    (run env active dir year s e).progress
      = (List.range' s (w - s)).map weekMsg ++ ["Scraping stopped by user."] ∧
    (run env active dir year s e).errors = [] ∧
    (run env active dir year s e).escaped = none ∧
    (run env active dir year s e).finalState = FinalState.completed := by
  have hpre' := hpre_range' hpre
  obtain ⟨hE, hP, _⟩ := @loopGo_all_ok env active dir year _ hpre'
  have hrun : run env active dir year s e =
      ⟨(loopGo env active dir year (List.range' s (w - s))).exports ++ [],
       (loopGo env active dir year (List.range' s (w - s))).progress
         ++ ["Scraping stopped by user."], [], 1, none⟩ := by
    unfold run
    rw [range'_split hsw hwe, loopGo_append_ok _ hpre', loopGo_stop _ hstop]
    simp only [finishRun]
  rw [hrun]
  refine ⟨?_, ?_, rfl, rfl, rfl⟩
  · simp [hE]
  · simp [hP]

/-- C3 witness: a `[1, 5]` run cancelled before week 3 exports weeks 1
and 2, emits the "stopped by user" notification, and ends `Completed`. -/
theorem C3_witness :
    (run envEmptyOk activeBefore3 "out" 2024 1 5).exports.map Prod.fst
      = List.range' 1 2 ∧
    (run envEmptyOk activeBefore3 "out" 2024 1 5).progress
      = (List.range' 1 2).map weekMsg ++ ["Scraping stopped by user."] ∧
    (run envEmptyOk activeBefore3 "out" 2024 1 5).errors = [] ∧
    (run envEmptyOk activeBefore3 "out" 2024 1 5).finalState
      = FinalState.completed := by
  obtain ⟨h1, h2, h3, h4, h5⟩ := C3_cancellation_completes envEmptyOk activeBefore3
    "out" 2024 1 5 3 (by decide) (by decide)
    (fun w' hlo hhi => ⟨by unfold activeBefore3; exact decide_eq_true hhi,
      ⟨[], by unfold processWeek envEmptyOk; rfl⟩⟩)
    rfl
  exact ⟨h1, h2, h3, h5⟩

/-- C10: the worker's handler catches only `ValueError` and
`WebDriverException`; any other exception while processing week `w`
(e.g. a `KeyError` for a missing odds column) produces no error
notification and escapes the `run` method, while the `finished`
notification is still emitted by the `finally` block (and earlier
weeks remain exported). -/
theorem C10_uncaught_exception_escapes (env : Nat → Except Exc (List RawRow))
    (active : Nat → Bool) (dir : String) (year s e w : Nat) (m : String)
    (hsw : s ≤ w) (hwe : w ≤ e)
    (hpre : ∀ w', s ≤ w' → w' < w →
      active w' = true ∧ ∃ recs, processWeek env w' = Except.ok recs)
    (hw : active w = true)
    (henv : env w = Except.error (Exc.other m)) :
    (run env active dir year s e).errors = [] ∧
    (run env active dir year s e).escaped = some m ∧
    (run env active dir year s e).finishedEmits = 1 ∧
    (run env active dir year s e).exports.map Prod.fst = List.range' s (w - s) := by
  have hpre' := hpre_range' hpre
  obtain ⟨hE, _, _⟩ := @loopGo_all_ok env active dir year _ hpre'
  have hrun : run env active dir year s e =
      ⟨(loopGo env active dir year (List.range' s (w - s))).exports ++ [],
       (loopGo env active dir year (List.range' s (w - s))).progress ++ [],
       [], 1, some m⟩ := by
    unfold run
    rw [range'_split hsw hwe, loopGo_append_ok _ hpre',
      loopGo_raise _ hw (processWeek_fetch_error henv)]
    simp only [finishRun]
    rw [if_neg (by simp [Exc.catchable])]
    rfl
  rw [hrun]
  refine ⟨rfl, rfl, rfl, ?_⟩
  simp [hE]

/-- C10 witness: with a `KeyError` at week 3 of a `[1, 4]` run, no
error notification is emitted, the exception message escapes, the
finished notification still fires, and weeks 1–2 stay exported. -/
theorem C10_witness :
    (run envKeyErr3 activeAll "out" 2024 1 4).errors = [] ∧
    (run envKeyErr3 activeAll "out" 2024 1 4).escaped = some "KeyError: Spread" ∧
    (run envKeyErr3 activeAll "out" 2024 1 4).finishedEmits = 1 ∧
    (run envKeyErr3 activeAll "out" 2024 1 4).exports.map Prod.fst
      = List.range' 1 2 := by
  exact C10_uncaught_exception_escapes envKeyErr3 activeAll "out" 2024 1 4 3
    "KeyError: Spread" (by decide) (by decide)
    (fun w' hlo hhi => ⟨rfl, ⟨[], by
      unfold processWeek envKeyErr3
      rw [if_neg (by omega)]
      rfl⟩⟩)
    rfl rfl

/-- C7: input validation accepts exactly when both week inputs parse
as integers in `[1, 18]` with end ≥ start (so a rejected input means
no run is started); an out-of-range start week (such as `"0"`) is
rejected with "Start week must be between 1 and 18." and an end week
smaller than the start week with "End week must be greater than or
equal to start week.". -/
theorem C7_validation (ss es : String) :
    ((validate_inputs ss es).1 = true ↔
      ∃ a b : Int, parseInt? ss = some a ∧ parseInt? es = some b ∧
        1 ≤ a ∧ a ≤ 18 ∧ 1 ≤ b ∧ b ≤ 18 ∧ a ≤ b) ∧
    (∀ a : Int, parseInt? ss = some a → (a < 1 ∨ 18 < a) →
      (validate_inputs ss es).2 = some "Start week must be between 1 and 18.") ∧
    (∀ a b : Int, parseInt? ss = some a → 1 ≤ a → a ≤ 18 →
      parseInt? es = some b → 1 ≤ b → b ≤ 18 → b < a →
      (validate_inputs ss es).2
        = some "End week must be greater than or equal to start week.") := by
  refine ⟨⟨?_, ?_⟩, ?_, ?_⟩
  · intro htrue
    cases hs : parseInt? ss with
    | none =>
      rw [validate_inputs, validate_week_nonnum hs] at htrue
      simp at htrue
    | some a =>
      by_cases ha : a < 1 ∨ 18 < a
      · rw [validate_inputs, validate_week_range hs ha] at htrue
        simp at htrue
      · have ha1 : 1 ≤ a := by omega
        have ha2 : a ≤ 18 := by omega
        cases he : parseInt? es with
        | none =>
          rw [validate_inputs, validate_week_ok hs ha1 ha2,
            validate_week_nonnum he] at htrue
          simp at htrue
        | some b =>
          by_cases hb : b < 1 ∨ 18 < b
          · rw [validate_inputs, validate_week_ok hs ha1 ha2,
              validate_week_range he hb] at htrue
            simp at htrue
          · have hb1 : 1 ≤ b := by omega
            have hb2 : b ≤ 18 := by omega
            rw [validate_inputs, validate_week_ok hs ha1 ha2,
              validate_week_ok he hb1 hb2] at htrue
            simp only [hs, he] at htrue
            by_cases hba : b < a
            · rw [if_pos hba] at htrue
              simp at htrue
            · exact ⟨a, b, rfl, rfl, ha1, ha2, hb1, hb2, by omega⟩
  · rintro ⟨a, b, hs, he, ha1, ha2, hb1, hb2, hab⟩
    rw [validate_inputs, validate_week_ok hs ha1 ha2, validate_week_ok he hb1 hb2]
    simp only [hs, he]
    rw [if_neg (by omega)]
  · intro a ha hout
    rw [validate_inputs, validate_week_range ha hout]
    rfl
  · intro a b ha ha1 ha2 hb hb1 hb2 hba
    rw [validate_inputs, validate_week_ok ha ha1 ha2, validate_week_ok hb hb1 hb2]
    simp only [ha, hb]
    rw [if_pos hba]

/-- C7 witness: `"0"` is rejected with the range message, the pair
`("5", "3")` with the ordering message, and validation returns false
for it. -/
theorem C7_witness :
    (validate_inputs "0" "3").2 = some "Start week must be between 1 and 18." ∧
    (validate_inputs "5" "3").2
      = some "End week must be greater than or equal to start week." ∧
    (validate_inputs "5" "3").1 = false := by
  refine ⟨?_, ?_, ?_⟩
  · exact (C7_validation "0" "3").2.1 0 (by decide) (Or.inl (by decide))
  · exact (C7_validation "5" "3").2.2 5 3 (by decide) (by decide) (by decide)
      (by decide) (by decide) (by decide) (by decide)
  · cases hb : (validate_inputs "5" "3").1 with
    | false => rfl
    | true =>
      exfalso
      obtain ⟨a, b, ha, hbb, h1, h2, h3, h4, h5⟩ := (C7_validation "5" "3").1.mp hb
      have ha5 : parseInt? "5" = some 5 := by decide
      have hb3 : parseInt? "3" = some 3 := by decide
      rw [ha5] at ha
      rw [hb3] at hbb
      injection ha with ha
      injection hbb with hbb
      subst ha
      subst hbb
      omega
